import Mathlib

/-!
Shallow embedding of the terminal RPG game (files `rpg_game.py`, `weapons.py`,
`save_profiles.py`).  Python machine integers are modelled as `Int`; the weapon
attack bonus (a Python float read from the catalog file) is modelled as `Int`
as well — every arithmetic operation performed on it in the sources is an exact
addition/subtraction of small values, so no rounding behaviour is lost.
Randomness (`random.randint`, `random.random`, `random.choices`,
`random.choice`) is modelled by explicit oracle inputs: a bound-respecting
roll function `Int → Int → Int` for `randint`, a `Bool` for the flee coin, and
`Nat` indices for the weighted/uniform choices.  Mutable Python objects become
explicit state passing; the shared weapon-catalog heap is modelled as a
`List Weapon` threaded through the save/load code, with references into it
represented as indices.
-/

/-- Model of `Weapon.__init__` in `weapons.py`: name, attack bonus, rarity tag,
durability counter (initialised to the max), max durability (0 = unbreakable),
cost, type tag, special effect ("None" sentinel) and description. -/
structure Weapon where
  name : String
  attack : Int
  rarity : String
  durability : Int
  max_durability : Int
  cost : Int
  weapon_type : String
  special_effect : String
  description : String
deriving DecidableEq

/-- Model of `Weapon.use` (`weapons.py` lines 34-40): if `max_durability > 0` decrement
`durability`; report `true` (broke) when the decremented durability is `≤ 0`.
With `max_durability == 0` nothing changes and the weapon never breaks. -/
def Weapon.use (w : Weapon) : Weapon × Bool :=
  if 0 < w.max_durability then
    let w' := { w with durability := w.durability - 1 }
    if w'.durability ≤ 0 then (w', true) else (w', false)
  else (w, false)

/-- Inventory entries: `Character.inventory` in `rpg_game.py` holds `Weapon`
objects and plain collectible strings. -/
inductive Item where
  | weapon (w : Weapon)
  | other (s : String)
deriving DecidableEq

/-- Model of the `Character.__init__` state (`rpg_game.py` lines 11-23). -/
structure Character where
  name : String
  max_health : Int
  health : Int
  base_attack : Int
  attack : Int
  defense : Int
  position : Int × Int
  inventory : List Item
  level : Int
  experience : Int
  equipped_weapon : Option Weapon
  gold : Int
deriving DecidableEq

/-- Model of `Character.__init__(name, health, attack, defense)`: health and max health
start equal, attack starts at the base value, position at the origin, empty
inventory, level 1, no experience, nothing equipped, 100 starting gold. -/
def Character.init (name : String) (health attack defense : Int) : Character :=
  { name := name
    max_health := health
    health := health
    base_attack := attack
    attack := attack
    defense := defense
    position := (0, 0)
    inventory := []
    level := 1
    experience := 0
    equipped_weapon := none
    gold := 100 }

/-- Model of `Character.equip_weapon` (lines 25-33): set the equipped weapon and
recompute `attack = base_attack + weapon.attack`. -/
def Character.equip_weapon (c : Character) (w : Weapon) : Character :=
  { c with equipped_weapon := some w, attack := c.base_attack + w.attack }

/-- Model of `Character.unequip_weapon` (lines 35-43): clear the equipped weapon,
reset `attack` to `base_attack`, return the weapon that was removed. -/
def Character.unequip_weapon (c : Character) : Character × Option Weapon :=
  match c.equipped_weapon with
  | some w => ({ c with equipped_weapon := none, attack := c.base_attack }, some w)
  | none => (c, none)

/-- Model of `Character.is_alive` (lines 45-46). -/
def Character.is_alive (c : Character) : Bool := 0 < c.health

/-- Model of `Character.take_damage` (lines 48-52): `actual = max(0, damage - defense)`,
subtract it from health, clamp health at 0, return the actual damage. -/
def Character.take_damage (c : Character) (damage : Int) : Character × Int :=
  let actual := max 0 (damage - c.defense)
  let h1 := c.health - actual
  ({ c with health := max 0 h1 }, actual)

/-- Model of `Character.heal` (lines 54-55). -/
def Character.heal (c : Character) (amount : Int) : Character :=
  { c with health := min c.max_health (c.health + amount) }

/-- Model of `Character.attack_target` (lines 57-68).  The damage roll
`random.randint(attack - 2, attack + 5)` is taken FIRST (modelled by the
oracle `rng` applied to the same bounds), then the equipped weapon's
durability is consumed; on a break the weapon is unequipped and `attack`
reverts to `base_attack`; finally the roll is applied to the target.
Returns (attacker after, target after, damage dealt). -/
def Character.attack_target (c : Character) (rng : Int → Int → Int)
    (target : Character) : Character × Character × Int :=
  let damage := rng (c.attack - 2) (c.attack + 5)
  let c' :=
    match c.equipped_weapon with
    | some w =>
      let ub := w.use
      if ub.2 then { c with equipped_weapon := none, attack := c.base_attack }
      else { c with equipped_weapon := some ub.1 }
    | none => c
  let td := target.take_damage damage
  (c', td.1, td.2)

/-- Model of `Character.level_up` (lines 102-117): level +1, experience -100,
max health +20 with full heal, base attack +3, attack recomputed from the
base plus any equipped weapon bonus, defense +2. -/
def Character.level_up (c : Character) : Character :=
  let mh := c.max_health + 20
  let ba := c.base_attack + 3
  let atk :=
    match c.equipped_weapon with
    | some w => ba + w.attack
    | none => ba
  { c with
    level := c.level + 1
    experience := c.experience - 100
    max_health := mh
    health := mh
    base_attack := ba
    attack := atk
    defense := c.defense + 2 }

/-- The `while self.experience >= 100: self.level_up()` loop of
`Character.gain_experience` (lines 98-100). -/
def Character.levelLoop (c : Character) : Character :=
  if _h : 100 ≤ c.experience then Character.levelLoop c.level_up else c
termination_by c.experience.toNat
decreasing_by simp [Character.level_up]; omega

/-- Model of `Character.gain_experience` (lines 94-100): add the experience, then level
up while at least 100 experience remains. -/
def Character.gain_experience (c : Character) (xp : Int) : Character :=
  Character.levelLoop { c with experience := c.experience + xp }

/-- Model of `Character.add_gold` (lines 119-121). -/
def Character.add_gold (c : Character) (amount : Int) : Character :=
  { c with gold := c.gold + amount }

/-- Model of `Enemy` (`rpg_game.py` lines 124-130): a `Character` plus experience and
gold rewards. -/
structure Enemy extends Character where
  xp_reward : Int
  gold_reward : Int
deriving DecidableEq

/-- The attack bonus contributed by an optionally equipped weapon. -/
def weaponBonus : Option Weapon → Int
  | some w => w.attack
  | none => 0

/-- The derived-field invariant of the spec: `effectiveAttack` (`attack`)
equals `baseAttack` plus the equipped weapon's bonus, or the bare
`baseAttack` when nothing is equipped. -/
def wellArmed (c : Character) : Prop :=
  c.attack = c.base_attack + weaponBonus c.equipped_weapon

instance (c : Character) : Decidable (wellArmed c) := by
  unfold wellArmed; infer_instance

/-- One core Character operation, for quantifying over operation sequences. -/
inductive Op where
  | equipOp (w : Weapon)
  | unequipOp
  | damageOp (d : Int)
  | healOp (a : Int)
  | attackOp (rng : Int → Int → Int) (t : Character)
  | gainOp (xp : Int)
  | levelOp

/-- Apply one operation to a character (projecting away targets/returns). -/
def applyOp (c : Character) : Op → Character
  | .equipOp w => c.equip_weapon w
  | .unequipOp => c.unequip_weapon.1
  | .damageOp d => (c.take_damage d).1
  | .healOp a => c.heal a
  | .attackOp rng t => (c.attack_target rng t).1
  | .gainOp xp => c.gain_experience xp
  | .levelOp => c.level_up

/-- Run a sequence of operations from a start state. -/
def runOps (c : Character) (ops : List Op) : Character :=
  ops.foldl applyOp c

/-- Iterate `attack_target` against a target `n` times, tracking both sides. -/
def attackN (c : Character) (rng : Int → Int → Int) (t : Character) :
    Nat → Character × Character
  | 0 => (c, t)
  | n + 1 =>
    let r := c.attack_target rng t
    attackN r.1 rng r.2.1 n

/-!  Combat resolver (`battle`, `rpg_game.py` lines 348-408).  The player's
menu input is modelled by `PlayerAction` — the flee coin (`random.random() < 0.25`)
travels with the flee action; any other input string leaves the round's
player phase a no-op, exactly as in the source. -/

inductive PlayerAction where
  | attackAct
  | defendAct
  | fleeAct (success : Bool)
  | invalidAct
deriving DecidableEq

/-- Result of one `while` iteration of `battle`. -/
inductive RoundResult where
  | fled (p : Character) (e : Enemy)
  | victory (p : Character) (e : Enemy)
  | defeat (p : Character) (e : Enemy)
  | next (p : Character) (e : Enemy)
deriving DecidableEq

/-- The player's half of a battle round (choices '1', '2', and the fall-through
cases: a failed flee or an unrecognised input change nothing). -/
def playerPhase (p : Character) (e : Enemy) (act : PlayerAction)
    (pRng : Int → Int → Int) : Character × Enemy :=
  match act with
  | .attackAct =>
    let r := p.attack_target pRng e.toCharacter
    (r.1, { e with toCharacter := r.2.1 })
  | .defendAct => (p.heal 15, e)
  | _ => (p, e)

/-- One iteration of the `battle` loop.  A successful flee returns at once
(before the enemy-defeated check and the enemy's turn).  Otherwise the player
phase runs, then: if the enemy is no longer alive the battle ends in victory
with `gain_experience(xp_reward)` and `add_gold(gold_reward)` applied to the
player; otherwise the enemy attacks and the round either ends the battle in
defeat or continues. -/
def battleRound (p : Character) (e : Enemy) (act : PlayerAction)
    (pRng eRng : Int → Int → Int) : RoundResult :=
  match act with
  | .fleeAct true => .fled p e
  | _ =>
    let pe := playerPhase p e act pRng
    if pe.2.toCharacter.is_alive then
      let r := pe.2.toCharacter.attack_target eRng pe.1
      let e' := { pe.2 with toCharacter := r.1 }
      if r.2.1.is_alive then .next r.2.1 e' else .defeat r.2.1 e'
    else
      .victory ((pe.1.gain_experience e.xp_reward).add_gold e.gold_reward) pe.2

/-- Outcome of the whole `battle` loop over a finite stream of round inputs. -/
inductive BattleResult where
  | fled (p : Character) (e : Enemy)
  | victory (p : Character) (e : Enemy)
  | defeat (p : Character) (e : Enemy)
  | guardExit (aliveValue : Bool) (p : Character) (e : Enemy)
  | ongoing (p : Character) (e : Enemy)
deriving DecidableEq

/-- The `battle` loop: while both are alive run rounds; if the guard fails the
source returns `player.is_alive()` (captured by `guardExit`); `ongoing` marks
exhaustion of the modelled input stream. -/
def battleLoop (p : Character) (e : Enemy) :
    List (PlayerAction × (Int → Int → Int) × (Int → Int → Int)) → BattleResult
  | [] =>
    if p.is_alive ∧ e.toCharacter.is_alive then .ongoing p e
    else .guardExit p.is_alive p e
  | i :: rest =>
    if p.is_alive ∧ e.toCharacter.is_alive then
      match battleRound p e i.1 i.2.1 i.2.2 with
      | .fled p' e' => .fled p' e'
      | .victory p' e' => .victory p' e'
      | .defeat p' e' => .defeat p' e'
      | .next p' e' => battleLoop p' e' rest
    else .guardExit p.is_alive p e

/-!  Weapon catalog (`WeaponManager`, `weapons.py`).  The manager's weapon
list is the catalog; references held by characters are indices into it. -/

/-- A placeholder weapon used only to totalise out-of-range index reads. -/
def defaultWeapon : Weapon :=
  { name := ""
    attack := 0
    rarity := ""
    durability := 0
    max_durability := 0
    cost := 0
    weapon_type := ""
    special_effect := ""
    description := "" }

/-- Read the catalog entry at an index. -/
def getW : List Weapon → Nat → Weapon
  | [], _ => defaultWeapon
  | w :: _, 0 => w
  | _ :: rest, i + 1 => getW rest i

/-- Overwrite the durability of the catalog entry at an index (the effect of
`weapon.durability = saved` on the object `get_weapon_by_name` returned). -/
def setDur : List Weapon → Nat → Int → List Weapon
  | [], _, _ => []
  | w :: rest, 0, d => { w with durability := d } :: rest
  | w :: rest, i + 1, d => w :: setDur rest i d

/-- Python's `str.lower()` on the ASCII names the game uses, written out on
the character list so that it evaluates by kernel reduction. -/
def lowerStr (s : String) : String := ⟨s.data.map Char.toLower⟩

/-- Model of `WeaponManager.get_weapon_by_name` (`weapons.py` lines 101-106) as an
index: first weapon whose name matches case-insensitively, if any. -/
def findIdxByName : List Weapon → String → Option Nat
  | [], _ => none
  | w :: rest, nm =>
    if lowerStr w.name == lowerStr nm then some 0
    else (findIdxByName rest nm).map (· + 1)

/-- Model of `WeaponManager.get_weapon_by_name` as a value. -/
def get_weapon_by_name (cat : List Weapon) (nm : String) : Option Weapon :=
  (findIdxByName cat nm).map (getW cat)

/-- Model of `WeaponManager.get_weapons_by_rarity` (lines 108-110): order-preserving
filter on exact rarity match. -/
def get_weapons_by_rarity (cat : List Weapon) (rarity : String) : List Weapon :=
  cat.filter (fun w => w.rarity == rarity)

/-- Model of `WeaponManager.get_random_weapon` (lines 138-149): restrict to the given
rarity (or the whole catalog), then `random.choice` — modelled as reading the
uniform index oracle `pick` modulo the pool size; an empty pool yields none. -/
def get_random_weapon (cat : List Weapon) (rarity : Option String)
    (pick : Nat) : Option Weapon :=
  let available :=
    match rarity with
    | some r => get_weapons_by_rarity cat r
    | none => cat
  available.get? (pick % available.length)

/-- The fixed rarity weights of `get_weighted_random_weapon` (lines 155-162). -/
def rarity_weights : List (String × Nat) :=
  [("Common", 50), ("Uncommon", 25), ("Rare", 15), ("Epic", 8), ("Legendary", 2)]

/-- Model of `random.choices(rarities, weights)` with the weights above: CPython draws
a uniform point in `[0, 100)` and bisects the cumulative weights
`[50, 75, 90, 98, 100]`.  The oracle `r` models the integer part of that
point, so `r < 50 ↦ Common`, `50 ≤ r < 75 ↦ Uncommon`, `75 ≤ r < 90 ↦ Rare`,
`90 ≤ r < 98 ↦ Epic`, `98 ≤ r ↦ Legendary`. -/
def chooseRarity (r : Nat) : String :=
  if r < 50 then "Common"
  else if r < 75 then "Uncommon"
  else if r < 90 then "Rare"
  else if r < 98 then "Epic"
  else "Legendary"

/-- Model of `WeaponManager.get_weighted_random_weapon` (lines 151-170): pick a rarity
by the fixed weights, then delegate to `get_random_weapon` for that rarity —
with no fallback when the tier is empty. -/
def get_weighted_random_weapon (cat : List Weapon) (r pick : Nat) :
    Option Weapon :=
  get_random_weapon cat (some (chooseRarity r)) pick

/-!  Persistence codec (`SaveManager`, `save_profiles.py`).  The JSON record
is embedded structurally: the weapon dictionaries written by `save_game`
carry exactly the fields of `Weapon`, so `Weapon` doubles as the snapshot
type.  Missing top-level keys (`'player'`, `'world'`) raise `KeyError` inside
the `try` of `load_game` and so land in the same handler as a JSON parse
failure; both are modelled below.  `moves_count` is read with
`.get('moves_count', 0)`, hence optional. -/

/-- One entry of the saved inventory list: a full weapon snapshot (a dict with
a `'name'` key) or a plain item wrapper (a dict with `'item_name'`). -/
inductive InvEntry where
  | weaponEntry (w : Weapon)
  | itemEntry (s : String)
deriving DecidableEq

/-- The `'player'` object written by `save_game` (lines 14-64). -/
structure PlayerData where
  name : String
  health : Int
  max_health : Int
  base_attack : Int
  attack : Int
  defense : Int
  position : Int × Int
  level : Int
  experience : Int
  gold : Int
  moves_count : Option Int
  equipped_weapon : Option Weapon
  inventory : List InvEntry
deriving DecidableEq

/-- The `'world'` object written by `save_game` (lines 67-71). -/
structure WorldData where
  width : Int
  height : Int
  discovered : List (Int × Int)
deriving DecidableEq

/-- A parsed save record; `none` fields model missing top-level keys. -/
structure RawSave where
  player : Option PlayerData
  world : Option WorldData
  version : Option String
deriving DecidableEq

/-- The on-disk situation `load_game` faces: no file at all, a file the JSON
parser rejects, or a parsed record. -/
inductive FileState where
  | missing
  | malformed
  | parsed (data : RawSave)
deriving DecidableEq

/-- The `GameWorld` state relevant to the codec (`rpg_game.py` lines 136-143). -/
structure World where
  width : Int
  height : Int
  discovered : List (Int × Int)
deriving DecidableEq

/-- The conversion `save_game` applies to each inventory item (lines 45-62):
weapons are snapshotted field by field, anything else is stringified. -/
def itemToEntry : Item → InvEntry
  | .weapon w => .weaponEntry w
  | .other s => .itemEntry s

/-- Model of `SaveManager.save_game` (lines 10-88), minus the file write: build the
record from the player, the world and the move counter. -/
def save_game (p : Character) (w : World) (moves_count : Int) : RawSave :=
  { player := some
      { name := p.name
        health := p.health
        max_health := p.max_health
        base_attack := p.base_attack
        attack := p.attack
        defense := p.defense
        position := p.position
        level := p.level
        experience := p.experience
        gold := p.gold
        moves_count := some moves_count
        equipped_weapon := p.equipped_weapon
        inventory := p.inventory.map itemToEntry }
    world := some { width := w.width, height := w.height, discovered := w.discovered }
    version := some "1.0" }

/-- What happened to `player.equipped_weapon` during the load: resolved to a
catalog index, cleared (null in the record), or left untouched because the
saved name was not found (the warning branch, lines 123-124). -/
inductive EquipRef where
  | refIdx (i : Nat)
  | clear
  | keep
deriving DecidableEq

/-- Equipped-weapon restore (lines 114-126): resolve the saved name in the
catalog and overwrite that entry's durability in place. -/
def loadEquip (cat : List Weapon) (snap : Option Weapon) :
    List Weapon × EquipRef :=
  match snap with
  | none => (cat, .clear)
  | some s =>
    match findIdxByName cat s.name with
    | some i => (setDur cat i s.durability, .refIdx i)
    | none => (cat, .keep)

/-- Inventory restore (lines 128-138): for each saved weapon resolve the name
in the catalog, overwrite that entry's durability, and keep a reference to it;
unresolved names are dropped; plain items are kept as strings. -/
def loadInv : List Weapon → List InvEntry → List Weapon × List (Nat ⊕ String)
  | cat, [] => (cat, [])
  | cat, .weaponEntry s :: rest =>
    match findIdxByName cat s.name with
    | some i =>
      let r := loadInv (setDur cat i s.durability) rest
      (r.1, .inl i :: r.2)
    | none => loadInv cat rest
  | cat, .itemEntry s :: rest =>
    let r := loadInv cat rest
    (r.1, .inr s :: r.2)

/-- Everything `load_game` hands back on success: the mutated player and
world, the (mutated!) catalog heap, and the move counter it returns. -/
structure LoadResult where
  character : Character
  world : World
  catalog : List Weapon
  moves_count : Int
deriving DecidableEq

/-- The observable outcome of `load_game`: the early `return None` after the
"No save file found" message, the `except` branch's `return None` after the
"Error loading game" message, or a successful load.  Both failure tags reach
the caller as the same `None` (`callerValue`). -/
inductive LoadOutcome where
  | noSave
  | loadError
  | ok (r : LoadResult)
deriving DecidableEq

/-- The value `load_game` actually returns to its caller (`None` or the move
counter with the mutated state). -/
def callerValue : LoadOutcome → Option LoadResult
  | .ok r => some r
  | _ => none

/-- The catalog heap after a load, when the load succeeded. -/
def outcomeCatalog : LoadOutcome → Option (List Weapon)
  | .ok r => some r.catalog
  | _ => none

/-- The loaded character's inventory, when the load succeeded. -/
def outcomeInventory : LoadOutcome → Option (List Item)
  | .ok r => some r.character.inventory
  | _ => none

/-- Dereference one restored inventory reference against a catalog heap. -/
def derefItem (catF : List Weapon) : Nat ⊕ String → Item
  | .inl i => .weapon (getW catF i)
  | .inr s => .other s

/-- Model of `SaveManager.load_game` (lines 90-154).  Missing file: early `None`.
Unparseable file or a record without the `'player'`/`'world'` keys: the
`except` branch's `None`.  Otherwise scalar fields are copied from the record,
the equipped weapon and each inventory weapon are resolved by name in the
catalog with their durabilities written onto the catalog objects themselves,
and references are dereferenced against the final heap (Python references stay
live through the later writes). -/
def load_game (file : FileState) (p : Character) (w : World)
    (cat : List Weapon) : LoadOutcome :=
  match file with
  | .missing => .noSave
  | .malformed => .loadError
  | .parsed raw =>
    match raw.player, raw.world with
    | some pd, some wd =>
      let ce := loadEquip cat pd.equipped_weapon
      let ci := loadInv ce.1 pd.inventory
      let equipped : Option Weapon :=
        match ce.2 with
        | .refIdx i => some (getW ci.1 i)
        | .clear => none
        | .keep => p.equipped_weapon
      let inv : List Item := ci.2.map (derefItem ci.1)
      .ok
        { character :=
            { p with
              name := pd.name
              health := pd.health
              max_health := pd.max_health
              base_attack := pd.base_attack
              attack := pd.attack
              defense := pd.defense
              position := pd.position
              level := pd.level
              experience := pd.experience
              gold := pd.gold
              equipped_weapon := equipped
              inventory := inv }
          world := { w with discovered := wd.discovered }
          catalog := ci.1
          moves_count := pd.moves_count.getD 0 }
    | _, _ => .loadError

/-- Observation used to compare inventories: a weapon's (name, durability)
pair or the plain item string. -/
def Item.profile : Item → (String × Int) ⊕ String
  | .weapon w => .inl (w.name, w.durability)
  | .other s => .inr s

/-- The inventory composition an inventory presents: weapon names with their
durabilities, and plain items, in order. -/
def invProfile (l : List Item) : List ((String × Int) ⊕ String) :=
  l.map Item.profile

/-- The weapons held in an inventory, in order. -/
def weaponsOf : List Item → List Weapon
  | [] => []
  | .weapon w :: rest => w :: weaponsOf rest
  | .other _ :: rest => weaponsOf rest

/-- The weapons among a record's inventory entries, in order. -/
def entryWeapons : List InvEntry → List Weapon
  | [] => []
  | .weaponEntry w :: rest => w :: entryWeapons rest
  | .itemEntry _ :: rest => entryWeapons rest

/-- The saved name/durability observation of a record inventory entry. -/
def entryProfile : InvEntry → (String × Int) ⊕ String
  | .weaponEntry w => .inl (w.name, w.durability)
  | .itemEntry s => .inr s

/-- A saved weapon resolves in the catalog to an entry carrying precisely the
saved name (so the re-resolved weapon displays the same name). -/
def resolvesExactly (cat : List Weapon) (w : Weapon) : Prop :=
  ∃ i, findIdxByName cat w.name = some i ∧ (getW cat i).name = w.name

/-- The name/durability observation of a loaded inventory reference, read
against the final catalog heap. -/
def refProfile (catF : List Weapon) : Nat ⊕ String → (String × Int) ⊕ String
  | .inl i => .inl ((getW catF i).name, (getW catF i).durability)
  | .inr s => .inr s

/-!  Concrete states used to instantiate the hypothesis-bearing theorems. -/

/-- A breakable catalog weapon. -/
def wEx : Weapon :=
  { name := "a"
    attack := 5
    rarity := "Common"
    durability := 10
    max_durability := 10
    cost := 15
    weapon_type := "Sword"
    special_effect := "None"
    description := "d" }

/-- A second breakable catalog weapon. -/
def wEx2 : Weapon :=
  { name := "b"
    attack := 7
    rarity := "Rare"
    durability := 8
    max_durability := 8
    cost := 40
    weapon_type := "Axe"
    special_effect := "None"
    description := "d" }

/-- An unbreakable catalog weapon (max durability 0). -/
def wEx3 : Weapon :=
  { name := "c"
    attack := 2
    rarity := "Uncommon"
    durability := 0
    max_durability := 0
    cost := 5
    weapon_type := "Staff"
    special_effect := "None"
    description := "d" }

/-- An example catalog. -/
def catEx : List Weapon := [wEx, wEx2, wEx3]

/-- A fresh example player, as `main` constructs one. -/
def pEx : Character := Character.init "Hero" 100 15 5

/-- An example player holding three partially used catalog weapons, the first
of them equipped. -/
def pInvEx : Character :=
  { pEx with
    inventory :=
      [ .weapon { wEx with durability := 4 }
      , .weapon { wEx2 with durability := 2 }
      , .weapon wEx3
      , .other "Potion" ]
    equipped_weapon := some { wEx with durability := 4 }
    attack := 20 }

/-- An example enemy (the Goblin stat block of `random_encounter`). -/
def eEx : Enemy :=
  { toCharacter := Character.init "Goblin" 30 8 2
    xp_reward := 25
    gold_reward := 15 }

/-- An example world. -/
def wdEx : World := { width := 10, height := 10, discovered := [(0, 0), (1, 0)] }

/-- A bound-respecting roll oracle: always return the lower bound. -/
def rngLo : Int → Int → Int := fun lo _ => lo

/-- A saved `'player'` object whose inventory references catalog weapon "a"
with a damaged durability. -/
def pdEx : PlayerData :=
  { name := "Hero"
    health := 80
    max_health := 100
    base_attack := 15
    attack := 20
    defense := 5
    position := (1, 0)
    level := 1
    experience := 40
    gold := 55
    moves_count := some 7
    equipped_weapon := none
    inventory := [.weaponEntry { wEx with durability := 2 }] }

/-- A saved `'world'` object. -/
def wdDataEx : WorldData := { width := 10, height := 10, discovered := [(0, 0), (1, 0)] }

/-- A record whose inventory references catalog weapon "a" with a damaged
durability, used to exhibit the catalog mutation performed by `load_game`. -/
def rawEx : RawSave :=
  { player := some pdEx
    world := some wdDataEx
    version := some "1.0" }


/-- A character one hit away from breaking its equipped weapon. -/
def cBreakEx : Character :=
  { pEx with equipped_weapon := some { wEx with durability := 1 }, attack := 20 }

/-- A one-hit enemy: any player attack kills it. -/
def eWeak : Enemy :=
  { toCharacter := Character.init "Rat" 1 1 0
    xp_reward := 5
    gold_reward := 3 }

/-- An already-dead enemy. -/
def eDead : Enemy :=
  { toCharacter := { Character.init "Goblin" 30 8 2 with health := 0 }
    xp_reward := 25
    gold_reward := 15 }

/-! Theorems about the embedding. -/

/-- Claim C4: for every raw damage `d` and character with defense `f` and
health `h`, `take_damage d` returns exactly `max 0 (d - f)` as the damage
dealt and sets health to `max 0 (h - max 0 (d - f))` — the loss is clamped
both at the defense and at zero health. -/
theorem take_damage_exact (c : Character) (d : Int) :
    (c.take_damage d).2 = max 0 (d - c.defense) ∧
    (c.take_damage d).1.health = max 0 (c.health - max 0 (d - c.defense)) := by
  constructor <;> simp [Character.take_damage]

/-- A freshly constructed character satisfies the derived-attack invariant. -/
theorem init_wellArmed (nm : String) (h a d : Int) :
    wellArmed (Character.init nm h a d) := by
  simp [wellArmed, Character.init, weaponBonus]

/-- A `level_up` call re-establishes the derived-attack invariant unconditionally. -/
theorem level_up_wellArmed (c : Character) : wellArmed c.level_up := by
  unfold wellArmed Character.level_up
  cases c.equipped_weapon <;> simp [weaponBonus]

/-- The level-up loop preserves the derived-attack invariant. -/
theorem levelLoop_wellArmed (c : Character) (h : wellArmed c) :
    wellArmed c.levelLoop := by
  induction c using Character.levelLoop.induct with
  | case1 c hc ih =>
    rw [Character.levelLoop]
    simp only [hc, dite_true]
    exact ih (level_up_wellArmed c)
  | case2 c hc =>
    rw [Character.levelLoop]
    simp only [hc, dite_false]
    exact h

/-- Every core operation preserves the derived-attack invariant. -/
theorem applyOp_wellArmed (c : Character) (op : Op) (h : wellArmed c) :
    wellArmed (applyOp c op) := by
  cases op with
  | equipOp w => simp [applyOp, Character.equip_weapon, wellArmed, weaponBonus]
  | unequipOp =>
    unfold applyOp Character.unequip_weapon
    cases hc : c.equipped_weapon with
    | some w => simp [wellArmed, weaponBonus]
    | none => simpa [wellArmed, weaponBonus, hc] using h
  | damageOp d => simpa [applyOp, Character.take_damage, wellArmed] using h
  | healOp a => simpa [applyOp, Character.heal, wellArmed] using h
  | attackOp rng t =>
    unfold applyOp Character.attack_target
    cases hc : c.equipped_weapon with
    | some w =>
      by_cases hb : (w.use).2
      · simp [hb, wellArmed, weaponBonus]
      · have hatk : (w.use).1.attack = w.attack := by
          rw [Weapon.use]
          split
          · dsimp only
            split <;> rfl
          · rfl
        simp only [hb, if_false]
        simpa [wellArmed, weaponBonus, hatk, hc] using h
    | none => simpa [wellArmed, hc] using h
  | gainOp xp =>
    unfold applyOp Character.gain_experience
    apply levelLoop_wellArmed
    simpa [wellArmed] using h
  | levelOp => exact level_up_wellArmed c

/-- Running any operation sequence from an invariant state keeps it. -/
theorem runOps_wellArmed (ops : List Op) :
    ∀ c : Character, wellArmed c → wellArmed (runOps c ops) := by
  induction ops with
  | nil => intro c hc; exact hc
  | cons op rest ih =>
    intro c hc
    exact ih (applyOp c op) (applyOp_wellArmed c op hc)

/-- Claim C3: every state reachable from a freshly constructed character via
equip, unequip, take damage, heal, attack, gain-experience and level-up
operations satisfies `attack = base_attack + equipped bonus` (and
`attack = base_attack` with nothing equipped), and each single operation
preserves this equation. -/
theorem effective_attack_invariant :
    (∀ (nm : String) (h a d : Int) (ops : List Op),
        wellArmed (runOps (Character.init nm h a d) ops)) ∧
    (∀ (c : Character) (op : Op), wellArmed c → wellArmed (applyOp c op)) := by
  constructor
  · intro nm h a d ops
    exact runOps_wellArmed ops _ (init_wellArmed nm h a d)
  · exact fun c op => applyOp_wellArmed c op

/-- Witness for C3: the invariant evaluated after a concrete operation
sequence, and one concrete single-step preservation. -/
theorem effective_attack_invariant_witness :
    wellArmed (runOps (Character.init "Hero" 100 15 5)
      [.equipOp wEx, .damageOp 7, .levelOp, .gainOp 250, .unequipOp]) ∧
    wellArmed (applyOp pInvEx .unequipOp) :=
  ⟨effective_attack_invariant.1 "Hero" 100 15 5
      [.equipOp wEx, .damageOp 7, .levelOp, .gainOp 250, .unequipOp],
   effective_attack_invariant.2 pInvEx .unequipOp (by decide)⟩

/-- Unfolding one attack out of an iterated sequence. -/
theorem attackN_succ (c : Character) (rng : Int → Int → Int) (t : Character)
    (n : Nat) :
    attackN c rng t (n + 1) =
      attackN (c.attack_target rng t).1 rng (c.attack_target rng t).2.1 n := rfl

/-- An attack with an unbreakable equipped weapon leaves the attacker's state
entirely unchanged. -/
theorem attack_target_unbreakable (c : Character) (w : Weapon)
    (rng : Int → Int → Int) (t : Character)
    (hw : c.equipped_weapon = some w) (h0 : w.max_durability ≤ 0) :
    (c.attack_target rng t).1 = c := by
  have h1 : ¬ 0 < w.max_durability := by omega
  simp [Character.attack_target, hw, Weapon.use, h1]
  rw [← hw]

/-- An attack with a breakable weapon that still has at least two durability
points: the attacker merely loses one durability point. -/
theorem attack_target_dec (c : Character) (w : Weapon)
    (rng : Int → Int → Int) (t : Character)
    (hw : c.equipped_weapon = some w) (hmax : 0 < w.max_durability)
    (hdur : 1 < w.durability) :
    (c.attack_target rng t).1 =
      { c with equipped_weapon := some { w with durability := w.durability - 1 } } := by
  have h2 : ¬ w.durability - 1 ≤ 0 := by omega
  simp [Character.attack_target, hw, Weapon.use, hmax, h2]

/-- An attack with a breakable weapon on its last durability point: the weapon
breaks, is unequipped, and the attack stat reverts to the base. -/
theorem attack_target_break (c : Character) (w : Weapon)
    (rng : Int → Int → Int) (t : Character)
    (hw : c.equipped_weapon = some w) (hmax : 0 < w.max_durability)
    (hdur : w.durability ≤ 1) :
    (c.attack_target rng t).1 =
      { c with equipped_weapon := none, attack := c.base_attack } := by
  have h2 : w.durability - 1 ≤ 0 := by omega
  simp [Character.attack_target, hw, Weapon.use, hmax, h2]

/-- Iterated attacks with a breakable equipped weapon at durability `N > 0`:
before the `N`-th attack the weapon is still equipped with its durability
counting down, and the `N`-th attack breaks it. -/
theorem attackN_break_aux (N : Nat) :
    ∀ (c : Character) (w : Weapon) (rng : Int → Int → Int) (t : Character),
      c.equipped_weapon = some w → 0 < w.max_durability →
      w.durability = (N : Int) → 0 < N →
      (∀ k : Nat, k < N →
          (attackN c rng t k).1 =
            { c with
              equipped_weapon := some { w with durability := (N : Int) - (k : Int) } }) ∧
      (attackN c rng t N).1.equipped_weapon = none ∧
      (attackN c rng t N).1.attack = c.base_attack := by
  induction N with
  | zero => intro c w rng t _ _ _ h0; exact absurd h0 (Nat.lt_irrefl 0)
  | succ n ih =>
    intro c w rng t hw hmax hdur _
    have hself : ∀ k : Nat, k = 0 →
        (attackN c rng t k).1 =
          { c with
            equipped_weapon := some { w with durability := ((n + 1 : Nat) : Int) - (k : Int) } } := by
      intro k hk
      subst hk
      show c = _
      rw [show ((n + 1 : Nat) : Int) - ((0 : Nat) : Int) = w.durability by omega]
      rw [← hw]
    rcases Nat.eq_zero_or_pos n with hn | hn
    · subst hn
      have hbreak := attack_target_break c w rng t hw hmax (by omega)
      refine ⟨?_, ?_, ?_⟩
      · intro k hk
        exact hself k (by omega)
      · rw [attackN_succ, hbreak]
        rfl
      · rw [attackN_succ, hbreak]
        rfl
    · have hdec := attack_target_dec c w rng t hw hmax (by omega)
      have hrec := ih (c.attack_target rng t).1 { w with durability := w.durability - 1 }
        rng (c.attack_target rng t).2.1
        (by rw [hdec]) (by simpa using hmax) (by simp; omega) hn
      refine ⟨?_, ?_, ?_⟩
      · intro k hk
        match k with
        | 0 => exact hself 0 rfl
        | j + 1 =>
          rw [attackN_succ, hrec.1 j (by omega),
            show (n : Int) - (j : Int) = ((n + 1 : Nat) : Int) - ((j + 1 : Nat) : Int) by
              push_cast; ring,
            hdec]
      · rw [attackN_succ]
        exact hrec.2.1
      · rw [attackN_succ, hrec.2.2, hdec]

/-- Claim C2: with an unbreakable equipped weapon (max durability 0) any
number of attacks leaves the attacker — weapon, durability and all — exactly
unchanged; with a breakable weapon at full durability `N > 0` the weapon is
still equipped with durability `N - k` after every `k < N` attacks, and the
`N`-th attack breaks it: the equipped slot clears automatically and the
attack stat reverts to the base attack. -/
theorem durability_break_exact :
    (∀ (c : Character) (w : Weapon) (rng : Int → Int → Int) (t : Character)
        (n : Nat),
        c.equipped_weapon = some w → w.max_durability = 0 →
        (attackN c rng t n).1 = c) ∧
    (∀ (c : Character) (w : Weapon) (rng : Int → Int → Int) (t : Character)
        (N : Nat),
        c.equipped_weapon = some w → 0 < N →
        w.max_durability = (N : Int) → w.durability = (N : Int) →
        (∀ k : Nat, k < N →
            (attackN c rng t k).1.equipped_weapon =
              some { w with durability := (N : Int) - (k : Int) }) ∧
        (attackN c rng t N).1.equipped_weapon = none ∧
        (attackN c rng t N).1.attack = c.base_attack) := by
  constructor
  · intro c w rng t n hw h0
    induction n generalizing c t with
    | zero => rfl
    | succ m ih =>
      rw [attackN_succ]
      rw [attack_target_unbreakable c w rng t hw (le_of_eq h0)]
      exact ih c _ hw
  · intro c w rng t N hw hN hmax hdur
    have h := attackN_break_aux N c w rng t hw (by omega) hdur hN
    exact ⟨fun k hk => by rw [h.1 k hk], h.2.1, h.2.2⟩

/-- Witness for C2: five attacks with the unbreakable staff change nothing;
the eighth attack with the full-durability axe breaks it, and after three
attacks the axe still has five durability points. -/
theorem durability_break_exact_witness :
    (attackN { pEx with equipped_weapon := some wEx3 } rngLo pEx 5).1 =
      { pEx with equipped_weapon := some wEx3 } ∧
    (attackN { pEx with equipped_weapon := some wEx2, attack := 22 } rngLo pEx 3).1.equipped_weapon =
      some { wEx2 with durability := (8 : Int) - (3 : Int) } ∧
    (attackN { pEx with equipped_weapon := some wEx2, attack := 22 } rngLo pEx 8).1.equipped_weapon =
      none :=
  ⟨durability_break_exact.1 _ wEx3 rngLo pEx 5 rfl rfl,
   by
    have h := durability_break_exact.2
      { pEx with equipped_weapon := some wEx2, attack := 22 } wEx2 rngLo pEx 8
      rfl (by decide) (by decide) (by decide)
    exact (h.1 3 (by decide)),
   by
    have h := durability_break_exact.2
      { pEx with equipped_weapon := some wEx2, attack := 22 } wEx2 rngLo pEx 8
      rfl (by decide) (by decide) (by decide)
    exact h.2.1⟩

/-- Claim C10: on the attack that breaks the equipped weapon (last durability
point), the damage roll is taken before the durability check, so it is still
drawn from `[base + bonus - 2, base + bonus + 5]`; the damage dealt and the
target's health loss are computed from that boosted roll, while the reversion
of the attack stat to the base (and the unequip) only shows afterwards. -/
theorem break_roll_uses_bonus (c t : Character) (w : Weapon)
    (rng : Int → Int → Int)
    (hrng : ∀ lo hi : Int, lo ≤ hi → lo ≤ rng lo hi ∧ rng lo hi ≤ hi)
    (hw : c.equipped_weapon = some w) (hmax : 0 < w.max_durability)
    (hdur : w.durability = 1)
    (hatk : c.attack = c.base_attack + w.attack) :
    (∃ roll : Int,
        c.base_attack + w.attack - 2 ≤ roll ∧
        roll ≤ c.base_attack + w.attack + 5 ∧
        (c.attack_target rng t).2.2 = max 0 (roll - t.defense) ∧
        (c.attack_target rng t).2.1.health =
          max 0 (t.health - max 0 (roll - t.defense))) ∧
    (c.attack_target rng t).1.equipped_weapon = none ∧
    (c.attack_target rng t).1.attack = c.base_attack := by
  have hb := hrng (c.attack - 2) (c.attack + 5) (by omega)
  have hbrk := attack_target_break c w rng t hw hmax (by omega)
  refine ⟨⟨rng (c.attack - 2) (c.attack + 5), by omega, by omega, ?_, ?_⟩, ?_, ?_⟩
  · simp [Character.attack_target, Character.take_damage]
  · simp [Character.attack_target, Character.take_damage]
  · rw [hbrk]
  · rw [hbrk]

/-- Witness for C10: the breaking blow of a damaged sword still rolls in the
weapon-boosted range and only afterwards does the attack stat revert. -/
theorem break_roll_uses_bonus_witness :
    (∃ roll : Int,
        cBreakEx.base_attack + wEx.attack - 2 ≤ roll ∧
        roll ≤ cBreakEx.base_attack + wEx.attack + 5 ∧
        (cBreakEx.attack_target rngLo pEx).2.2 = max 0 (roll - pEx.defense) ∧
        (cBreakEx.attack_target rngLo pEx).2.1.health =
          max 0 (pEx.health - max 0 (roll - pEx.defense))) ∧
    (cBreakEx.attack_target rngLo pEx).1.equipped_weapon = none ∧
    (cBreakEx.attack_target rngLo pEx).1.attack = cBreakEx.base_attack := by
  have h := break_roll_uses_bonus cBreakEx pEx { wEx with durability := 1 } rngLo
    (fun lo hi hle => ⟨le_refl lo, hle⟩) rfl (by decide) (by decide) (by decide)
  exact h

/-- Field facts about one `level_up` call. -/
theorem level_up_fields (c : Character) :
    c.level_up.level = c.level + 1 ∧
    c.level_up.experience = c.experience - 100 ∧
    c.level_up.max_health = c.max_health + 20 ∧
    c.level_up.health = c.max_health + 20 ∧
    c.level_up.base_attack = c.base_attack + 3 ∧
    c.level_up.defense = c.defense + 2 ∧
    c.level_up.equipped_weapon = c.equipped_weapon ∧
    c.level_up.gold = c.gold ∧
    c.level_up.attack = c.level_up.base_attack + weaponBonus c.level_up.equipped_weapon := by
  unfold Character.level_up
  cases c.equipped_weapon <;> simp [weaponBonus]

/-- Full characterisation of the level-up loop for a non-negative experience
total `e`: it performs exactly `e / 100` level-up iterations, leaving
`e % 100` experience, `+20` max health, `+3` base attack and `+2` defense per
iteration, with health fully restored and the attack stat recomputed whenever
at least one iteration ran. -/
theorem levelLoop_spec : ∀ c : Character, 0 ≤ c.experience →
    c.levelLoop.level = c.level + c.experience / 100 ∧
    c.levelLoop.experience = c.experience % 100 ∧
    c.levelLoop.max_health = c.max_health + 20 * (c.experience / 100) ∧
    c.levelLoop.base_attack = c.base_attack + 3 * (c.experience / 100) ∧
    c.levelLoop.defense = c.defense + 2 * (c.experience / 100) ∧
    c.levelLoop.equipped_weapon = c.equipped_weapon ∧
    c.levelLoop.gold = c.gold ∧
    (c.experience < 100 → c.levelLoop = c) ∧
    (100 ≤ c.experience →
      c.levelLoop.health = c.levelLoop.max_health ∧
      c.levelLoop.attack = c.levelLoop.base_attack + weaponBonus c.levelLoop.equipped_weapon) := by
  intro c
  induction c using Character.levelLoop.induct with
  | case1 c hc ih =>
    intro _
    obtain ⟨fl, fe, fmh, fh, fba, fdf, few, fgd, fat⟩ := level_up_fields c
    have h0' : 0 ≤ c.level_up.experience := by rw [fe]; omega
    obtain ⟨il, ie, imh, iba, idf, iew, igd, ilt, ige⟩ := ih h0'
    rw [Character.levelLoop, dif_pos hc]
    refine ⟨?_, ?_, ?_, ?_, ?_, ?_, ?_, ?_, ?_⟩
    · rw [il, fl, fe]; omega
    · rw [ie, fe]; omega
    · rw [imh, fmh, fe]; omega
    · rw [iba, fba, fe]; omega
    · rw [idf, fdf, fe]; omega
    · rw [iew, few]
    · rw [igd, fgd]
    · intro hlt; omega
    · intro _
      rcases lt_or_le c.level_up.experience 100 with hsmall | hbig
      · rw [ilt hsmall]
        exact ⟨by rw [fh, fmh], fat⟩
      · exact ige hbig
  | case2 c hc =>
    intro h0
    rw [Character.levelLoop, dif_neg hc]
    refine ⟨by omega, by omega, by omega, by omega, by omega, rfl, rfl,
      fun _ => rfl, fun hge => absurd hge hc⟩

/-- Claim C5: `gain_experience xp` adds the experience and then performs one
level-up iteration per full 100 experience points, possibly several in one
call — `(e + xp) / 100` iterations in total, leaving `(e + xp) % 100`
residual experience with the per-iteration stat gains accumulated; in
particular a level-1 character with 0 experience gaining 250 ends at exactly
level 3 with exactly 50 residual experience. -/
theorem gain_experience_levels (c : Character) (xp : Int)
    (h0 : 0 ≤ c.experience + xp) :
    (c.gain_experience xp).level = c.level + (c.experience + xp) / 100 ∧
    (c.gain_experience xp).experience = (c.experience + xp) % 100 ∧
    (c.gain_experience xp).max_health =
      c.max_health + 20 * ((c.experience + xp) / 100) ∧
    (c.gain_experience xp).base_attack =
      c.base_attack + 3 * ((c.experience + xp) / 100) ∧
    (c.gain_experience xp).defense =
      c.defense + 2 * ((c.experience + xp) / 100) ∧
    (100 ≤ c.experience + xp →
      (c.gain_experience xp).health = (c.gain_experience xp).max_health ∧
      (c.gain_experience xp).attack =
        (c.gain_experience xp).base_attack +
          weaponBonus (c.gain_experience xp).equipped_weapon) ∧
    (c.level = 1 → c.experience = 0 → xp = 250 →
      (c.gain_experience xp).level = 3 ∧ (c.gain_experience xp).experience = 50) := by
  have hs := levelLoop_spec { c with experience := c.experience + xp } h0
  refine ⟨hs.1, hs.2.1, hs.2.2.1, hs.2.2.2.1, hs.2.2.2.2.1,
    fun h => hs.2.2.2.2.2.2.2.2 h, ?_⟩
  intro h1 h2 h3
  constructor
  · rw [show (c.gain_experience xp).level =
        c.level + (c.experience + xp) / 100 from hs.1, h1, h2, h3]
    decide
  · rw [show (c.gain_experience xp).experience =
        (c.experience + xp) % 100 from hs.2.1, h2, h3]
    decide

/-- Witness for C5: the fresh hero gaining 250 experience levels up twice,
to level 3 with 50 residual experience, max health 140 and full health. -/
theorem gain_experience_levels_witness :
    (pEx.gain_experience 250).level = pEx.level + (pEx.experience + 250) / 100 ∧
    (pEx.gain_experience 250).experience = (pEx.experience + 250) % 100 ∧
    (pEx.gain_experience 250).level = 3 ∧
    (pEx.gain_experience 250).experience = 50 := by
  have h := gain_experience_levels pEx 250 (by decide)
  exact ⟨h.1, h.2.1, (h.2.2.2.2.2.2 rfl rfl rfl).1, (h.2.2.2.2.2.2 rfl rfl rfl).2⟩

/-- The level-up loop never touches the gold field. -/
theorem levelLoop_gold : ∀ c : Character, c.levelLoop.gold = c.gold := by
  intro c
  induction c using Character.levelLoop.induct with
  | case1 c hc ih =>
    rw [Character.levelLoop, dif_pos hc, ih]
    simp [Character.level_up]
  | case2 c hc => rw [Character.levelLoop, dif_neg hc]

/-- Claim C6: in every combat round, a successful flee ends the battle at once
with a fled outcome, both sides untouched (the enemy does not act); a failed
flee consumes the round and the still-alive enemy performs its attack on the
player; whenever the enemy's health has reached 0 after the player's action,
the round ends in victory before any enemy action, with the enemy's
experience and gold rewards applied to the player; and the loop never runs a
round (so the enemy never attacks) once the enemy's health has reached 0. -/
theorem battle_round_temporal :
    (∀ (p : Character) (e : Enemy) (pr er : Int → Int → Int),
        battleRound p e (.fleeAct true) pr er = .fled p e) ∧
    (∀ (p : Character) (e : Enemy) (pr er : Int → Int → Int),
        e.toCharacter.is_alive = true →
        ∃ (p' : Character) (e' : Enemy),
          (battleRound p e (.fleeAct false) pr er = .next p' e' ∨
            battleRound p e (.fleeAct false) pr er = .defeat p' e') ∧
          p'.health = max 0 (p.health -
            max 0 (er (e.toCharacter.attack - 2) (e.toCharacter.attack + 5) - p.defense))) ∧
    (∀ (p : Character) (e : Enemy) (act : PlayerAction) (pr er : Int → Int → Int),
        act ≠ .fleeAct true →
        (playerPhase p e act pr).2.toCharacter.is_alive = false →
        battleRound p e act pr er =
          .victory (((playerPhase p e act pr).1.gain_experience e.xp_reward).add_gold
            e.gold_reward) (playerPhase p e act pr).2 ∧
        (((playerPhase p e act pr).1.gain_experience e.xp_reward).add_gold
            e.gold_reward).gold = (playerPhase p e act pr).1.gold + e.gold_reward) ∧
    (∀ (p : Character) (e : Enemy)
        (i : PlayerAction × (Int → Int → Int) × (Int → Int → Int))
        (rest : List (PlayerAction × (Int → Int → Int) × (Int → Int → Int))),
        e.toCharacter.is_alive = false →
        battleLoop p e (i :: rest) = .guardExit p.is_alive p e) := by
  have hgold : ∀ (p1 : Character) (xg gg : Int),
      ((p1.gain_experience xg).add_gold gg).gold = p1.gold + gg := by
    intro p1 xg gg
    simp [Character.add_gold, Character.gain_experience, levelLoop_gold]
  refine ⟨?_, ?_, ?_, ?_⟩
  · intro p e pr er; rfl
  · intro p e pr er halive
    refine ⟨(e.toCharacter.attack_target er p).2.1,
      { e with toCharacter := (e.toCharacter.attack_target er p).1 }, ?_, ?_⟩
    · by_cases hb : (e.toCharacter.attack_target er p).2.1.is_alive = true
      · left
        simp [battleRound, playerPhase, halive, hb]
      · right
        simp only [Bool.not_eq_true] at hb
        simp [battleRound, playerPhase, halive, hb]
    · simp [Character.attack_target, Character.take_damage]
  · intro p e act pr er hne hdead
    refine ⟨?_, hgold _ _ _⟩
    cases act with
    | attackAct => simp [battleRound, hdead]
    | defendAct => simp [battleRound, hdead]
    | fleeAct b =>
      cases b with
      | false => simp [battleRound, hdead]
      | true => exact absurd rfl hne
    | invalidAct => simp [battleRound, hdead]
  · intro p e i rest hdead
    simp [battleLoop, hdead]

/-- Witness for C6: concrete rounds — a successful flee, a failed flee with
the goblin striking back, a kill of a one-hit enemy yielding victory with the
rewards, and a loop entered against a dead enemy doing nothing. -/
theorem battle_round_temporal_witness :
    battleRound pEx eEx (.fleeAct true) rngLo rngLo = .fled pEx eEx ∧
    (∃ (p' : Character) (e' : Enemy),
        (battleRound pEx eEx (.fleeAct false) rngLo rngLo = .next p' e' ∨
          battleRound pEx eEx (.fleeAct false) rngLo rngLo = .defeat p' e') ∧
        p'.health = max 0 (pEx.health -
          max 0 (rngLo (eEx.toCharacter.attack - 2) (eEx.toCharacter.attack + 5) -
            pEx.defense))) ∧
    battleRound pEx eWeak .attackAct rngLo rngLo =
      .victory (((playerPhase pEx eWeak .attackAct rngLo).1.gain_experience
        eWeak.xp_reward).add_gold eWeak.gold_reward)
        (playerPhase pEx eWeak .attackAct rngLo).2 ∧
    battleLoop pEx eDead [(.attackAct, rngLo, rngLo)] = .guardExit pEx.is_alive pEx eDead :=
  ⟨battle_round_temporal.1 pEx eEx rngLo rngLo,
   battle_round_temporal.2.1 pEx eEx rngLo rngLo (by decide),
   (battle_round_temporal.2.2.1 pEx eWeak .attackAct rngLo rngLo (by decide) (by decide)).1,
   battle_round_temporal.2.2.2 pEx eDead (.attackAct, rngLo, rngLo) [] (by decide)⟩

/-- Claim C9: the weighted draw selects the rarity tier by exactly the fixed
weights Common 50, Uncommon 25, Rare 15, Epic 8, Legendary 2 (out of 100
equiprobable oracle values, exactly that many map to each tier), then samples
uniformly (by index modulo the tier size) from the order-preserving rarity
subset of the catalog; whenever the chosen tier is empty the draw returns no
weapon — it never falls back to another tier. -/
theorem weighted_draw_no_fallback :
    ((List.range 100).countP (fun r => chooseRarity r == "Common") = 50 ∧
      (List.range 100).countP (fun r => chooseRarity r == "Uncommon") = 25 ∧
      (List.range 100).countP (fun r => chooseRarity r == "Rare") = 15 ∧
      (List.range 100).countP (fun r => chooseRarity r == "Epic") = 8 ∧
      (List.range 100).countP (fun r => chooseRarity r == "Legendary") = 2) ∧
    (∀ (cat : List Weapon) (r pick : Nat),
        get_weapons_by_rarity cat (chooseRarity r) = [] →
        get_weighted_random_weapon cat r pick = none) ∧
    (∀ (cat : List Weapon) (r pick : Nat),
        get_weapons_by_rarity cat (chooseRarity r) ≠ [] →
        get_weighted_random_weapon cat r pick =
          (get_weapons_by_rarity cat (chooseRarity r)).get?
            (pick % (get_weapons_by_rarity cat (chooseRarity r)).length) ∧
        ∃ w, get_weighted_random_weapon cat r pick = some w ∧
          w ∈ cat ∧ w.rarity = chooseRarity r) := by
  refine ⟨by decide, ?_, ?_⟩
  · intro cat r pick hempty
    unfold get_weighted_random_weapon get_random_weapon
    dsimp only
    rw [hempty]
    rfl
  · intro cat r pick hne
    have heq : get_weighted_random_weapon cat r pick =
        (get_weapons_by_rarity cat (chooseRarity r)).get?
          (pick % (get_weapons_by_rarity cat (chooseRarity r)).length) := rfl
    refine ⟨heq, ?_⟩
    have hlen : 0 < (get_weapons_by_rarity cat (chooseRarity r)).length :=
      List.length_pos.2 hne
    have hlt : pick % (get_weapons_by_rarity cat (chooseRarity r)).length <
        (get_weapons_by_rarity cat (chooseRarity r)).length := Nat.mod_lt _ hlen
    refine ⟨(get_weapons_by_rarity cat (chooseRarity r)).get ⟨_, hlt⟩, ?_, ?_, ?_⟩
    · rw [heq]
      exact List.get?_eq_get hlt
    · have hm := List.get_mem (get_weapons_by_rarity cat (chooseRarity r)) _ hlt
      exact (List.mem_filter.1 hm).1
    · have hm := List.get_mem (get_weapons_by_rarity cat (chooseRarity r)) _ hlt
      exact eq_of_beq (List.mem_filter.1 hm).2

/-- Witness for C9: against the example catalog, the oracle value 90 selects
the Epic tier, which is empty, so the draw yields nothing; the oracle value 0
selects Common and uniformly picks the sword. -/
theorem weighted_draw_no_fallback_witness :
    get_weighted_random_weapon catEx 90 0 = none ∧
    (∃ w, get_weighted_random_weapon catEx 0 0 = some w ∧
      w ∈ catEx ∧ w.rarity = chooseRarity 0) :=
  ⟨weighted_draw_no_fallback.2.1 catEx 90 0 (by decide),
   (weighted_draw_no_fallback.2.2 catEx 0 0 (by decide)).2⟩

/-- Claim C7: `load_game` distinguishes its failure modes — a missing save
file takes the early "No save file found" return (`noSave`, not an
exception), while an unparseable file or a record missing a required
top-level key takes the `except` branch's "Error loading game" return
(`loadError`), a condition distinct from `noSave`; in both cases the value
surfaced to the caller is `none` (never a crash — the load is a total
function), on which the caller falls back to starting a fresh game. -/
theorem load_failure_modes :
    (∀ (p : Character) (w : World) (cat : List Weapon),
        load_game .missing p w cat = .noSave) ∧
    (∀ (p : Character) (w : World) (cat : List Weapon),
        load_game .malformed p w cat = .loadError) ∧
    (∀ (p : Character) (w : World) (cat : List Weapon) (raw : RawSave),
        raw.player = none ∨ raw.world = none →
        load_game (.parsed raw) p w cat = .loadError) ∧
    LoadOutcome.noSave ≠ LoadOutcome.loadError ∧
    (∀ o : LoadOutcome, o = .noSave ∨ o = .loadError → callerValue o = none) := by
  refine ⟨fun _ _ _ => rfl, fun _ _ _ => rfl, ?_, by decide, ?_⟩
  · intro p w cat raw hmiss
    obtain ⟨op, ow, ov⟩ := raw
    rcases op with _ | pd
    · rfl
    · rcases ow with _ | wd
      · rfl
      · simp at hmiss
  · intro o ho
    rcases ho with h | h <;> rw [h] <;> rfl

/-- Witness for C7: the record lacking its `'player'` key loads as
`loadError`, and both failure outcomes surface `none` to the caller. -/
theorem load_failure_modes_witness :
    load_game (.parsed { player := none, world := none, version := some "1.0" })
      pEx wdEx catEx = .loadError ∧
    callerValue .noSave = none ∧
    callerValue .loadError = none :=
  ⟨load_failure_modes.2.2.1 pEx wdEx catEx
      { player := none, world := none, version := some "1.0" } (Or.inl rfl),
   load_failure_modes.2.2.2.2 .noSave (Or.inl rfl),
   load_failure_modes.2.2.2.2 .loadError (Or.inr rfl)⟩

/-- A successful name lookup is in bounds and lands on a matching name. -/
theorem findIdxByName_spec : ∀ (cat : List Weapon) (nm : String) (i : Nat),
    findIdxByName cat nm = some i →
    i < cat.length ∧ lowerStr (getW cat i).name = lowerStr nm := by
  intro cat
  induction cat with
  | nil => intro nm i h; exact absurd h (by simp [findIdxByName])
  | cons w rest ih =>
    intro nm i h
    unfold findIdxByName at h
    by_cases hw : lowerStr w.name == lowerStr nm
    · rw [if_pos hw] at h
      cases h
      exact ⟨by simp, by simpa using eq_of_beq hw⟩
    · rw [if_neg hw] at h
      cases hr : findIdxByName rest nm with
      | none => rw [hr] at h; exact absurd h (by simp)
      | some j =>
        rw [hr] at h
        simp only [Option.map_some'] at h
        cases h
        obtain ⟨hlt, hnm⟩ := ih nm j hr
        exact ⟨by simp; omega, hnm⟩

/-- Writing a durability does not change the heap's length. -/
theorem length_setDur : ∀ (cat : List Weapon) (i : Nat) (d : Int),
    (setDur cat i d).length = cat.length := by
  intro cat
  induction cat with
  | nil => intro i d; rfl
  | cons w rest ih =>
    intro i d
    cases i with
    | zero => rfl
    | succ j => simp [setDur, ih]

/-- Reading another index than the one written is unaffected. -/
theorem getW_setDur_ne : ∀ (cat : List Weapon) (i : Nat) (d : Int) (j : Nat),
    j ≠ i → getW (setDur cat i d) j = getW cat j := by
  intro cat
  induction cat with
  | nil => intro i d j _; rfl
  | cons w rest ih =>
    intro i d j hne
    cases i with
    | zero =>
      cases j with
      | zero => exact absurd rfl hne
      | succ j' => rfl
    | succ i' =>
      cases j with
      | zero => rfl
      | succ j' => exact ih i' d j' (by omega)

/-- Reading the written index yields the durability update of the old entry. -/
theorem getW_setDur_self : ∀ (cat : List Weapon) (i : Nat) (d : Int),
    i < cat.length → getW (setDur cat i d) i = { getW cat i with durability := d } := by
  intro cat
  induction cat with
  | nil => intro i d h; exact absurd h (by simp)
  | cons w rest ih =>
    intro i d h
    cases i with
    | zero => rfl
    | succ j => exact ih j d (by simpa using h)

/-- Durability writes never change a stored name. -/
theorem name_setDur : ∀ (cat : List Weapon) (i : Nat) (d : Int) (j : Nat),
    (getW (setDur cat i d) j).name = (getW cat j).name := by
  intro cat i d j
  by_cases hij : j = i
  · subst hij
    by_cases hlt : j < cat.length
    · rw [getW_setDur_self cat j d hlt]
    · have h1 : cat.length ≤ j := by omega
      have hout : ∀ (l : List Weapon) (k : Nat), l.length ≤ k → getW l k = defaultWeapon := by
        intro l
        induction l with
        | nil => intro k _; cases k <;> rfl
        | cons x xs ihl =>
          intro k hk
          cases k with
          | zero => exact absurd hk (by simp)
          | succ k' => exact ihl k' (by simpa using hk)
      rw [hout _ _ (by rw [length_setDur]; exact h1), hout _ _ h1]
  · rw [getW_setDur_ne cat i d j hij]

/-- Name lookups see through durability writes. -/
theorem findIdxByName_setDur : ∀ (cat : List Weapon) (i : Nat) (d : Int) (nm : String),
    findIdxByName (setDur cat i d) nm = findIdxByName cat nm := by
  intro cat
  induction cat with
  | nil => intro i d nm; rfl
  | cons w rest ih =>
    intro i d nm
    cases i with
    | zero => simp [setDur, findIdxByName]
    | succ j => simp [setDur, findIdxByName, ih j d nm]

/-- Lookups only depend on the lower-cased key. -/
theorem findIdxByName_congr : ∀ (cat : List Weapon) (n1 n2 : String),
    lowerStr n1 = lowerStr n2 → findIdxByName cat n1 = findIdxByName cat n2 := by
  intro cat n1 n2 h
  induction cat with
  | nil => rfl
  | cons w rest ih => simp [findIdxByName, h, ih]

/-- The inventory restore never changes stored names. -/
theorem loadInv_name : ∀ (entries : List InvEntry) (cat : List Weapon) (j : Nat),
    (getW (loadInv cat entries).1 j).name = (getW cat j).name := by
  intro entries
  induction entries with
  | nil => intro cat j; rfl
  | cons e rest ih =>
    intro cat j
    cases e with
    | weaponEntry s =>
      cases hidx : findIdxByName cat s.name with
      | none => simp [loadInv, hidx, ih]
      | some i =>
        simp only [loadInv, hidx]
        rw [ih (setDur cat i s.durability) j, name_setDur]
    | itemEntry s => simp [loadInv, ih]

/-- Name lookups see through the whole inventory restore. -/
theorem loadInv_findIdx : ∀ (entries : List InvEntry) (cat : List Weapon) (nm : String),
    findIdxByName (loadInv cat entries).1 nm = findIdxByName cat nm := by
  intro entries
  induction entries with
  | nil => intro cat nm; rfl
  | cons e rest ih =>
    intro cat nm
    cases e with
    | weaponEntry s =>
      cases hidx : findIdxByName cat s.name with
      | none => simp [loadInv, hidx, ih]
      | some i =>
        simp only [loadInv, hidx]
        rw [ih (setDur cat i s.durability) nm, findIdxByName_setDur]
    | itemEntry s => simp [loadInv, ih]

/-- Frame property of the inventory restore: an index whose entry already
carries the durability that every same-named saved weapon would write is left
with exactly its old value. -/
theorem loadInv_frame : ∀ (entries : List InvEntry) (cat : List Weapon) (j : Nat),
    (∀ wp ∈ entryWeapons entries, lowerStr wp.name = lowerStr (getW cat j).name →
      wp.durability = (getW cat j).durability) →
    getW (loadInv cat entries).1 j = getW cat j := by
  intro entries
  induction entries with
  | nil => intro cat j _; rfl
  | cons e rest ih =>
    intro cat j hcomp
    cases e with
    | itemEntry s =>
      simp only [loadInv]
      exact ih cat j (fun wp hwp => hcomp wp (by simp [entryWeapons] at hwp ⊢; exact hwp))
    | weaponEntry s =>
      have hsmem : s ∈ entryWeapons (.weaponEntry s :: rest) := by
        simp [entryWeapons]
      have hrestmem : ∀ wp ∈ entryWeapons rest, wp ∈ entryWeapons (.weaponEntry s :: rest) := by
        intro wp hwp
        simp [entryWeapons] at hwp ⊢
        exact Or.inr hwp
      cases hidx : findIdxByName cat s.name with
      | none =>
        simp only [loadInv, hidx]
        exact ih cat j (fun wp hwp => hcomp wp (hrestmem wp hwp))
      | some i =>
        simp only [loadInv, hidx]
        obtain ⟨hilt, hiname⟩ := findIdxByName_spec cat s.name i hidx
        by_cases hij : i = j
        · subst hij
          have hdur : s.durability = (getW cat i).durability :=
            hcomp s hsmem hiname.symm
          have heq : setDur cat i s.durability = setDur cat i (getW cat i).durability := by
            rw [hdur]
          have hsame : getW (setDur cat i s.durability) i = getW cat i := by
            rw [getW_setDur_self cat i s.durability hilt, hdur]
          rw [ih (setDur cat i s.durability) i ?_, hsame]
          intro wp hwp hnm
          rw [hsame] at hnm ⊢
          exact hcomp wp (hrestmem wp hwp) hnm
        · have hne : getW (setDur cat i s.durability) j = getW cat j :=
            getW_setDur_ne cat i s.durability j (fun h => hij h.symm)
          rw [ih (setDur cat i s.durability) j ?_, hne]
          intro wp hwp hnm
          rw [hne] at hnm ⊢
          exact hcomp wp (hrestmem wp hwp) hnm

/-- Write property of the inventory restore: the catalog entry a saved weapon
resolves to ends up carrying exactly that weapon's saved durability, provided
all saved weapons resolve and same-named saved weapons agree on durability
(which holds for every state the game itself produces, where same-named
inventory entries are one shared object). -/
theorem loadInv_write : ∀ (entries : List InvEntry) (cat : List Weapon)
    (wp : Weapon) (i : Nat),
    (∀ a ∈ entryWeapons entries, resolvesExactly cat a) →
    (∀ a ∈ entryWeapons entries, ∀ b ∈ entryWeapons entries,
      lowerStr a.name = lowerStr b.name → a.durability = b.durability) →
    wp ∈ entryWeapons entries →
    findIdxByName cat wp.name = some i →
    getW (loadInv cat entries).1 i = { getW cat i with durability := wp.durability } := by
  intro entries
  induction entries with
  | nil => intro cat wp i _ _ hmem _; simp [entryWeapons] at hmem
  | cons e rest ih =>
    intro cat wp i hres hcomp hmem hidx
    cases e with
    | itemEntry s =>
      have hrw : entryWeapons (InvEntry.itemEntry s :: rest) = entryWeapons rest := by
        simp [entryWeapons]
      rw [hrw] at hres hcomp hmem
      simp only [loadInv]
      exact ih cat wp i hres hcomp hmem hidx
    | weaponEntry s =>
      have hrw : entryWeapons (InvEntry.weaponEntry s :: rest) = s :: entryWeapons rest := by
        simp [entryWeapons]
      rw [hrw] at hres hcomp hmem
      have hsmem : s ∈ s :: entryWeapons rest := List.mem_cons_self s _
      obtain ⟨is0, his, hisname⟩ := hres s hsmem
      simp only [loadInv, his]
      obtain ⟨hislt, hislow⟩ := findIdxByName_spec cat s.name is0 his
      obtain ⟨hilt, hilow⟩ := findIdxByName_spec cat wp.name i hidx
      by_cases hlow : lowerStr wp.name = lowerStr s.name
      · have hieq : i = is0 := by
          have := findIdxByName_congr cat wp.name s.name hlow
          rw [hidx, his] at this
          exact Option.some.inj this
        subst hieq
        have hdur : wp.durability = s.durability :=
          hcomp wp hmem s hsmem hlow
        have hset : getW (setDur cat i s.durability) i =
            { getW cat i with durability := wp.durability } := by
          rw [getW_setDur_self cat i s.durability hilt, hdur]
        rw [loadInv_frame rest (setDur cat i s.durability) i ?_, hset]
        intro a ha hnm
        rw [hset] at hnm ⊢
        have halow : lowerStr a.name = lowerStr wp.name := by
          rw [hnm]
          exact hilow
        exact hcomp a (List.mem_cons_of_mem s ha) wp hmem halow
      · have hine : i ≠ is0 := by
          intro hcontra
          rw [hcontra] at hilow
          exact hlow (by rw [← hilow, hislow])
        have hmem' : wp ∈ entryWeapons rest := by
          rcases List.mem_cons.1 hmem with hws | hmr
          · exact absurd (by rw [hws]) hlow
          · exact hmr
        have hres' : ∀ a ∈ entryWeapons rest, resolvesExactly (setDur cat is0 s.durability) a := by
          intro a ha
          obtain ⟨ia, hia, hianame⟩ := hres a (List.mem_cons_of_mem s ha)
          exact ⟨ia, by rw [findIdxByName_setDur]; exact hia, by rw [name_setDur]; exact hianame⟩
        have hcomp' : ∀ a ∈ entryWeapons rest, ∀ b ∈ entryWeapons rest,
            lowerStr a.name = lowerStr b.name → a.durability = b.durability := by
          intro a ha b hb
          exact hcomp a (List.mem_cons_of_mem s ha) b (List.mem_cons_of_mem s hb)
        have hidx' : findIdxByName (setDur cat is0 s.durability) wp.name = some i := by
          rw [findIdxByName_setDur]; exact hidx
        rw [ih (setDur cat is0 s.durability) wp i hres' hcomp' hmem' hidx',
          getW_setDur_ne cat is0 s.durability i hine]

/-- Profile property of the inventory restore: read against the final heap,
the restored references reproduce, in order, exactly the saved names,
durabilities and plain items. -/
theorem loadInv_profile : ∀ (entries : List InvEntry) (cat : List Weapon),
    (∀ a ∈ entryWeapons entries, resolvesExactly cat a) →
    (∀ a ∈ entryWeapons entries, ∀ b ∈ entryWeapons entries,
      lowerStr a.name = lowerStr b.name → a.durability = b.durability) →
    (loadInv cat entries).2.map (refProfile (loadInv cat entries).1) =
      entries.map entryProfile := by
  intro entries
  induction entries with
  | nil => intro cat _ _; rfl
  | cons e rest ih =>
    intro cat hres hcomp
    cases e with
    | itemEntry s =>
      have hrw : entryWeapons (InvEntry.itemEntry s :: rest) = entryWeapons rest := by
        simp [entryWeapons]
      rw [hrw] at hres hcomp
      simp only [loadInv, List.map_cons]
      rw [ih cat hres hcomp]
      rfl
    | weaponEntry s =>
      have hrw : entryWeapons (InvEntry.weaponEntry s :: rest) = s :: entryWeapons rest := by
        simp [entryWeapons]
      rw [hrw] at hres hcomp
      have hsmem : s ∈ s :: entryWeapons rest := List.mem_cons_self s _
      obtain ⟨is0, his, hisname⟩ := hres s hsmem
      obtain ⟨hislt, hislow⟩ := findIdxByName_spec cat s.name is0 his
      have hres' : ∀ a ∈ entryWeapons rest, resolvesExactly (setDur cat is0 s.durability) a := by
        intro a ha
        obtain ⟨ia, hia, hianame⟩ := hres a (List.mem_cons_of_mem s ha)
        exact ⟨ia, by rw [findIdxByName_setDur]; exact hia, by rw [name_setDur]; exact hianame⟩
      have hcomp' : ∀ a ∈ entryWeapons rest, ∀ b ∈ entryWeapons rest,
          lowerStr a.name = lowerStr b.name → a.durability = b.durability := by
        intro a ha b hb
        exact hcomp a (List.mem_cons_of_mem s ha) b (List.mem_cons_of_mem s hb)
      simp only [loadInv, his, List.map_cons]
      refine List.cons_eq_cons.mpr ⟨?_, ?_⟩
      · have hset : getW (setDur cat is0 s.durability) is0 =
            { getW cat is0 with durability := s.durability } :=
          getW_setDur_self cat is0 s.durability hislt
        have hfr : getW (loadInv (setDur cat is0 s.durability) rest).1 is0 =
            { getW cat is0 with durability := s.durability } := by
          rw [loadInv_frame rest (setDur cat is0 s.durability) is0 ?_, hset]
          intro a ha hnm
          rw [hset] at hnm ⊢
          have halow : lowerStr a.name = lowerStr s.name := by rw [hnm]; exact hislow
          exact hcomp a (List.mem_cons_of_mem s ha) s hsmem halow
        simp only [refProfile, entryProfile, hfr]
        rw [hisname]
      · exact ih (setDur cat is0 s.durability) hres' hcomp'

/-- Counterexample to C8 as stated: loading a record that references catalog
weapon "a" with saved durability 2 mutates the shared catalog — entry 0,
which carried durability 10 before the load, carries 2 afterwards, so the
load's result catalog is not the original catalog. -/
theorem load_mutates_catalog_cex :
    (getW catEx 0).durability = 10 ∧
    outcomeCatalog (load_game (.parsed rawEx) pEx wdEx catEx) =
      some (setDur catEx 0 2) ∧
    (getW (setDur catEx 0 2) 0).durability = 2 ∧
    outcomeCatalog (load_game (.parsed rawEx) pEx wdEx catEx) ≠ some catEx := by
  refine ⟨rfl, by decide, rfl, by decide⟩

/-- Claim C8 (amended): deserialization re-applies each saved durability onto
the catalog's canonical entry itself — `get_weapon_by_name` returns the
catalog's own object, no fresh instance is made — so a load overwrites the
shared catalog's durability at the resolved index and the loaded character's
inventory weapon is (an alias of) that mutated catalog entry. -/
theorem load_restores_durability_in_place (cat : List Weapon) (p : Character)
    (w : World) (pd : PlayerData) (wd : WorldData) (v : Option String)
    (s : Weapon) (i : Nat)
    (hpd : pd.equipped_weapon = none) (hinv : pd.inventory = [.weaponEntry s])
    (hidx : findIdxByName cat s.name = some i) :
    outcomeCatalog (load_game
        (.parsed { player := some pd, world := some wd, version := v }) p w cat) =
      some (setDur cat i s.durability) ∧
    getW (setDur cat i s.durability) i =
      { getW cat i with durability := s.durability } ∧
    outcomeInventory (load_game
        (.parsed { player := some pd, world := some wd, version := v }) p w cat) =
      some [.weapon (getW (setDur cat i s.durability) i)] := by
  have hilt := (findIdxByName_spec cat s.name i hidx).1
  have hli : loadInv cat pd.inventory = (setDur cat i s.durability, [.inl i]) := by
    rw [hinv]
    simp [loadInv, hidx]
  refine ⟨?_, getW_setDur_self cat i s.durability hilt, ?_⟩ <;>
    simp [load_game, loadEquip, hpd, hli, outcomeCatalog, outcomeInventory, derefItem]

/-- Witness for the amended C8: the concrete load overwrites catalog entry 0
with durability 2 and hands back that very entry in the inventory. -/
theorem load_restores_durability_in_place_witness :
    outcomeCatalog (load_game (.parsed rawEx) pEx wdEx catEx) =
      some (setDur catEx 0 2) ∧
    getW (setDur catEx 0 2) 0 =
      { getW catEx 0 with durability := (2 : Int) } ∧
    outcomeInventory (load_game (.parsed rawEx) pEx wdEx catEx) =
      some [.weapon (getW (setDur catEx 0 2) 0)] :=
  load_restores_durability_in_place catEx pEx wdEx pdEx wdDataEx (some "1.0")
    { wEx with durability := 2 } 0 rfl rfl (by decide)

/-- Snapshotting an inventory keeps exactly its weapons. -/
theorem entryWeapons_map (l : List Item) :
    entryWeapons (l.map itemToEntry) = weaponsOf l := by
  induction l with
  | nil => rfl
  | cons it rest ih => cases it <;> simp [itemToEntry, entryWeapons, weaponsOf, ih]

/-- Snapshotting an inventory preserves its name/durability/item profile. -/
theorem entryProfile_map (l : List Item) :
    (l.map itemToEntry).map entryProfile = invProfile l := by
  induction l with
  | nil => rfl
  | cons it rest ih =>
    cases it <;> simp [itemToEntry, entryProfile, invProfile, Item.profile, ih]

/-- Dereferencing restored references and then profiling the items is the
same as profiling the references against the final heap. -/
theorem invProfile_map_deref (catF : List Weapon) (refs : List (Nat ⊕ String)) :
    invProfile (refs.map (derefItem catF)) = refs.map (refProfile catF) := by
  induction refs with
  | nil => rfl
  | cons r rest ih =>
    cases r <;> simp [invProfile, derefItem, Item.profile, refProfile, ih]

/-- Claim C1: serialising a character (three inventory weapons, one of them
equipped and strictly below its max durability, weapons drawn from the
catalog: each resolves there under its exact name, and same-named inventory
weapons carry equal durability, as aliasing guarantees in every state the
game produces) together with the world, then deserialising against the same
catalog, reproduces all scalar stats, the equipped weapon's name and current
durability, the full inventory composition in order (weapon names and
durabilities, plain items as strings) and the move counter. -/
theorem save_load_roundtrip (p : Character) (w : World) (cat : List Weapon)
    (m : Int) (pf : Character) (wf : World) (w1 w2 w3 we : Weapon)
    (_hinv : weaponsOf p.inventory = [w1, w2, w3])
    (hres : ∀ wp ∈ weaponsOf p.inventory, resolvesExactly cat wp)
    (hcomp : ∀ a ∈ weaponsOf p.inventory, ∀ b ∈ weaponsOf p.inventory,
      lowerStr a.name = lowerStr b.name → a.durability = b.durability)
    (heq : p.equipped_weapon = some we) (hwe : we ∈ weaponsOf p.inventory)
    (_hdmg : we.durability < we.max_durability) :
    ∃ r, load_game (.parsed (save_game p w m)) pf wf cat = .ok r ∧
      r.character.name = p.name ∧
      r.character.health = p.health ∧
      r.character.max_health = p.max_health ∧
      r.character.base_attack = p.base_attack ∧
      r.character.defense = p.defense ∧
      r.character.position = p.position ∧
      r.character.level = p.level ∧
      r.character.experience = p.experience ∧
      r.character.gold = p.gold ∧
      r.character.equipped_weapon.map (fun x => (x.name, x.durability)) =
        some (we.name, we.durability) ∧
      invProfile r.character.inventory = invProfile p.inventory ∧
      r.moves_count = m := by
  obtain ⟨ie, hie, hiename⟩ := hres we hwe
  have hEW := entryWeapons_map p.inventory
  have hres1 : ∀ a ∈ entryWeapons (p.inventory.map itemToEntry),
      resolvesExactly (setDur cat ie we.durability) a := by
    intro a ha
    rw [hEW] at ha
    obtain ⟨ia, hia, hianame⟩ := hres a ha
    exact ⟨ia, by rw [findIdxByName_setDur]; exact hia,
      by rw [name_setDur]; exact hianame⟩
  have hcomp1 : ∀ a ∈ entryWeapons (p.inventory.map itemToEntry),
      ∀ b ∈ entryWeapons (p.inventory.map itemToEntry),
      lowerStr a.name = lowerStr b.name → a.durability = b.durability := by
    intro a ha b hb
    rw [hEW] at ha hb
    exact hcomp a ha b hb
  have hwemem : we ∈ entryWeapons (p.inventory.map itemToEntry) := by
    rw [hEW]; exact hwe
  have hie1 : findIdxByName (setDur cat ie we.durability) we.name = some ie := by
    rw [findIdxByName_setDur]; exact hie
  have hwrite := loadInv_write (p.inventory.map itemToEntry)
    (setDur cat ie we.durability) we ie hres1 hcomp1 hwemem hie1
  have hprofile := loadInv_profile (p.inventory.map itemToEntry)
    (setDur cat ie we.durability) hres1 hcomp1
  have hle : loadEquip cat p.equipped_weapon =
      (setDur cat ie we.durability, .refIdx ie) := by
    rw [heq]
    simp [loadEquip, hie]
  refine ⟨_, rfl, rfl, rfl, rfl, rfl, rfl, rfl, rfl, rfl, rfl, ?_, ?_, rfl⟩
  · dsimp only
    rw [hle]
    dsimp only
    rw [hwrite]
    simp only [Option.map_some']
    rw [name_setDur, hiename]
  · dsimp only
    rw [hle]
    dsimp only
    rw [invProfile_map_deref, hprofile, entryProfile_map]

/-- Witness for C1: the example player holding three damaged catalog weapons
(the first equipped at durability 4 of 10) plus a potion string round-trips
through save and load against the example catalog. -/
theorem save_load_roundtrip_witness :
    ∃ r, load_game (.parsed (save_game pInvEx wdEx 7)) pEx wdEx catEx = .ok r ∧
      r.character.name = pInvEx.name ∧
      r.character.health = pInvEx.health ∧
      r.character.max_health = pInvEx.max_health ∧
      r.character.base_attack = pInvEx.base_attack ∧
      r.character.defense = pInvEx.defense ∧
      r.character.position = pInvEx.position ∧
      r.character.level = pInvEx.level ∧
      r.character.experience = pInvEx.experience ∧
      r.character.gold = pInvEx.gold ∧
      r.character.equipped_weapon.map (fun x => (x.name, x.durability)) =
        some (({ wEx with durability := (4 : Int) }).name,
          ({ wEx with durability := (4 : Int) }).durability) ∧
      invProfile r.character.inventory = invProfile pInvEx.inventory ∧
      r.moves_count = 7 := by
  have hlist : weaponsOf pInvEx.inventory =
      [{ wEx with durability := 4 }, { wEx2 with durability := 2 }, wEx3] := by decide
  refine save_load_roundtrip pInvEx wdEx catEx 7 pEx wdEx
    { wEx with durability := 4 } { wEx2 with durability := 2 } wEx3
    { wEx with durability := 4 } hlist ?_ (by decide) rfl (by decide) (by decide)
  intro wp hwp
  rw [hlist] at hwp
  simp only [List.mem_cons, List.not_mem_nil, or_false] at hwp
  rcases hwp with rfl | rfl | rfl
  · exact ⟨0, by decide, by decide⟩
  · exact ⟨1, by decide, by decide⟩
  · exact ⟨2, by decide, by decide⟩
